import Mathlib

/-!
Verification of the company-information scraper (`task_llm.py`).

The program is embedded shallowly:

* A parsed HTML document (a BeautifulSoup tree) is a list of `Node`s; an
  element keeps only the data the program inspects (tag name, optional
  `href` attribute, children).
* Network I/O (`requests.get` + parsing inside `fetch_content`) and the
  generative-model endpoint (inside `call_gemini_api`) are oracles passed
  as function parameters; an `Except.error` models a raised exception.
  `urljoin` from the standard library is likewise passed as a parameter.
* In-place mutation of the parsed document performed by `extract_text`
  (`decompose`, `insert_after`) is made explicit by returning the mutated
  tree alongside the flattened text.
* BeautifulSoup truth-testing (`if not soup:` / `if additional_soup:`)
  tests emptiness: a tag with no contents is falsy, so it is modelled as
  an `isEmpty` test on the list of top-level nodes.
-/

/-- A node of the parsed document tree: a text node, or an element with a
tag name, an optional `href` attribute and a list of children. -/
inductive Node where
  | text (s : String)
  | elem (tag : String) (href : Option String) (children : List Node)

/-- A parsed document: the list of top-level nodes of the soup. -/
abbrev Soup := List Node

/-- The network oracle: for a URL, either a raised request exception
(`error`) or the parsed document together with the regex-extracted raw
URL-like substrings of the response body (`js_links`). -/
abbrev NetOracle := String → Except Unit (Soup × List String)

/-- The generative-model oracle: for a prompt, either a raised exception
(`error s`), or `ok none` for a falsy response object, or `ok (some t)`
for a response with text `t`. -/
abbrev GenOracle := String → Except String (Option String)

/-- The double-quote character. -/
def dquote : Char := Char.ofNat 34

/-- The single-quote character. -/
def squote : Char := Char.ofNat 39

/-- Python substring test `pat in s` on unpacked strings:
`isPrefixB pat l` decides whether `pat` is a prefix of `l`. -/
def isPrefixB : List Char → List Char → Bool
  | [], _ => true
  | _ :: _, [] => false
  | a :: as, b :: bs => a == b && isPrefixB as bs

/-- Python substring test `pat in s`, scanning every tail of `s`. -/
def containsList (pat : List Char) : List Char → Bool
  | [] => isPrefixB pat []
  | s :: rest => isPrefixB pat (s :: rest) || containsList pat rest

/-- Python `pat in s` for strings. -/
def strIn (pat s : String) : Bool := containsList pat.data s.data

/-- The marker substring signalling a lack of information. -/
def marker : String := "Information Not Available"

/-- Model of `fetch_content`: a successful GET yields the parsed soup and the raw
links; a raised `requests.RequestException` yields `(None, None)`. -/
def fetch_content (net : NetOracle) (url : String) : Option (Soup × List String) :=
  match net url with
  | Except.error _ => none
  | Except.ok r => some r

/-- Helper of `clean_text`: Python `str.replace` for a single character. -/
def replaceChar (a b : Char) (l : List Char) : List Char :=
  l.map (fun c => if c = a then b else c)

/-- Model of `re.sub(r'\s+', ' ', ·)`: every maximal run of whitespace becomes a
single space. -/
def collapseWS : List Char → List Char
  | [] => []
  | [c] => if c.isWhitespace then [' '] else [c]
  | a :: b :: rest =>
    if a.isWhitespace then
      (if b.isWhitespace then collapseWS (b :: rest)
       else ' ' :: collapseWS (b :: rest))
    else a :: collapseWS (b :: rest)

/-- Python `str.strip()`: drop leading and trailing whitespace. -/
def stripWS (l : List Char) : List Char :=
  List.rdropWhile Char.isWhitespace (l.dropWhile Char.isWhitespace)

/-- Model of `clean_text(text)`:
`re.sub(r'\s+', ' ', text.replace('"', "'").replace('\n', ' ')).strip()`. -/
def clean_text (text : String) : String :=
  String.mk (stripWS (collapseWS
    (replaceChar '\n' ' ' (replaceChar dquote squote text.data))))

/-- Whether a tag is removed by `soup(['script', 'style'])` + `decompose`. -/
def isSS (tag : String) : Bool := tag == "script" || tag == "style"

/-- First mutation of `extract_text`: decompose every `script`/`style`
element of the tree. -/
def decomposeSS : List Node → List Node
  | [] => []
  | Node.text s :: rest => Node.text s :: decomposeSS rest
  | Node.elem t h cs :: rest =>
    if isSS t then decomposeSS rest
    else Node.elem t h (decomposeSS cs) :: decomposeSS rest

/-- Second mutation of `extract_text`: for every `a` element carrying an
`href`, insert the text node `" (href)"` right after it. -/
def insertHrefs : List Node → List Node
  | [] => []
  | Node.text s :: rest => Node.text s :: insertHrefs rest
  | Node.elem t h cs :: rest =>
    match h with
    | some href =>
      if t == "a" then
        Node.elem t h (insertHrefs cs) :: Node.text (" (" ++ href ++ ")") ::
          insertHrefs rest
      else Node.elem t h (insertHrefs cs) :: insertHrefs rest
    | none => Node.elem t h (insertHrefs cs) :: insertHrefs rest

/-- The strings of all text nodes, in document order (BeautifulSoup
`_all_strings`). -/
def rawStrings : List Node → List String
  | [] => []
  | Node.text s :: rest => s :: rawStrings rest
  | Node.elem _ _ cs :: rest => rawStrings cs ++ rawStrings rest

/-- The `get_text(strip=True)` string collection: each string stripped,
empty results skipped. -/
def strippedStrings (l : List Node) : List String :=
  (rawStrings l).filterMap
    (fun s => if stripWS s.data = [] then none else some (String.mk (stripWS s.data)))

/-- Model of `separator.join` for `separator = " "`. -/
def joinSp : List String → String
  | [] => ""
  | [s] => s
  | s :: t :: rest => s ++ " " ++ joinSp (t :: rest)

/-- Model of `soup.get_text(separator=' ', strip=True)`. -/
def get_text (l : List Node) : String := joinSp (strippedStrings l)

/-- Model of `extract_text(soup)`: decomposes `script`/`style`, inserts the href
text nodes, and flattens. Returns the text together with the mutated
tree (the Python function mutates `soup` in place). -/
def extract_text (soup : Soup) : String × Soup :=
  let mutated := insertHrefs (decomposeSS soup)
  (get_text mutated, mutated)

/-- The fixed prompt template of `call_gemini_api` (f-string with the six
questions, with the page text spliced at the end). -/
def prompt (cleaned_text : String) : String :=
  "\n    Extract the following detailed company information from the provided text:\n    \n    1. What is the company\x27s mission statement or core values?\n    2. What products or services does the company offer?\n    3. When was the company founded, and who were the founders?\n    4. Where is the company\x27s headquarters located?\n    5. Who are the key executives or leadership team members?\n    6. Has the company received any notable awards or recognitions?\n    \n    Provide the output in a CSV-compatible format, ensuring each question is clearly answered.\n    \n    Text: " ++ cleaned_text ++ "\n    "

/-- Model of `call_gemini_api(cleaned_text)`: builds the prompt, queries the
model; any exception is caught and yields `""`; a falsy response object
also yields `""`. -/
def call_gemini_api (gen : GenOracle) (cleaned_text : String) : String :=
  match gen (prompt cleaned_text) with
  | Except.error _ => ""
  | Except.ok none => ""
  | Except.ok (some t) => t

/-- The compiled-in `COMPANY_KEYWORDS` dictionary. -/
def COMPANY_KEYWORDS_table : List (String × List String) :=
  [("https://www.apple.com", ["business", "newsroom", "compliance"]),
   ("https://www.toyota-global.com",
    ["executives", "global-vision", "company", "financial-results", "profile"]),
   ("https://www.jpmorganchase.com",
    ["leadership", "awards-and-recognition", "our-history", "suppliers",
     "business-principles"]),
   ("https://www.pfizer.com",
    ["product-list", "executives", "history", "purpose", "global-impact"]),
   ("https://www.thewaltdisneycompany.com",
    ["our-businesses", "news", "social-impact", "about"]),
   ("https://www.shell.com",
    ["who-we-are", "our-values", "our-history", "news-and-insights"]),
   ("https://www.siemens.com",
    ["products.html", "management.html", "telegraphy-and-telex.html",
     "system-and-method-for-robotic-picking.html",
     "technology-to-transform-the-everyday.html"]),
   ("https://www.samsung.com/in/",
    ["company-info", "business-area", "brand-identity", "environment"]),
   ("https://www.nike.com", ["about", "investors", "sustainability"])]

/-- Lookup `COMPANY_KEYWORDS.get(url, [])`. -/
def COMPANY_KEYWORDS (url : String) : List String :=
  match COMPANY_KEYWORDS_table.lookup url with
  | some ks => ks
  | none => []

/-- Python `str.lower()` (ASCII model). -/
def lowerStr (s : String) : String := String.mk (s.data.map Char.toLower)

/-- Model of `any(k in s.lower() for k in keywords)` — the keyword match used on
hrefs and raw links (the candidate string is lowercased, each keyword is
used as written). -/
def anyKeyword (keywords : List String) (s : String) : Bool :=
  keywords.any (fun k => strIn k (lowerStr s))

/-- The hrefs of all `a` elements carrying an `href` attribute, in
document order (`soup.find_all("a", href=True)`). -/
def findAnchors : List Node → List String
  | [] => []
  | Node.text _ :: rest => findAnchors rest
  | Node.elem t h cs :: rest =>
    (if t == "a" then h.toList else []) ++ findAnchors cs ++ findAnchors rest

/-- Model of `extract_relevant_links(soup, js_links, base_url, url)`: the
deduplicated union of keyword-matching structural hrefs (joined against
the base URL) and keyword-matching raw links. The Python set is modelled
as a deduplicated list. -/
def extract_relevant_links (join : String → String → String) (soup : Soup)
    (js_links : List String) (base_url url : String) : List String :=
  let keywords := COMPANY_KEYWORDS url
  let structural :=
    ((findAnchors soup).filter (fun h => anyKeyword keywords h)).map (join base_url)
  let raw := js_links.filter (fun l => anyKeyword keywords l)
  (structural ++ raw).dedup

/-- The fixed failure placeholder of `get_company_information`. -/
def failMsg : String := "Failed to fetch content."

/-- The fallback loop of `get_company_information`: iterate the candidate
links; a falsy fetched soup (failed fetch or empty document) is skipped;
otherwise the page text is appended, the model re-queried, and the loop
breaks as soon as the marker is gone. -/
def expandLinks (net : NetOracle) (gen : GenOracle) :
    List String → String → String → String
  | [], _, extracted_info => extracted_info
  | link :: rest, cleaned_text, extracted_info =>
    match fetch_content net link with
    | none => expandLinks net gen rest cleaned_text extracted_info
    | some (additional_soup, _) =>
      if additional_soup.isEmpty then
        expandLinks net gen rest cleaned_text extracted_info
      else
        let t2 := cleaned_text ++ "\n" ++ (extract_text additional_soup).1
        let i2 := call_gemini_api gen t2
        if strIn marker i2 then expandLinks net gen rest t2 i2 else i2

/-- Model of `get_company_information(url)`. Note that `extract_relevant_links`
receives the soup as mutated by `extract_text`. -/
def get_company_information (net : NetOracle) (gen : GenOracle)
    (join : String → String → String) (url : String) : String :=
  match fetch_content net url with
  | none => failMsg
  | some (soup, js_links) =>
    if soup.isEmpty then failMsg
    else
      let cleaned_text := (extract_text soup).1
      let soup2 := (extract_text soup).2
      let extracted_info := call_gemini_api gen cleaned_text
      if strIn marker extracted_info then
        expandLinks net gen (extract_relevant_links join soup2 js_links url url)
          cleaned_text extracted_info
      else extracted_info

/-- Model of `process_urls(urls)`: the ordered batch output (the list handed to
`save_to_csv`; persistence itself is I/O and outside the model). -/
def process_urls (net : NetOracle) (gen : GenOracle)
    (join : String → String → String) (urls : List String) :
    List (String × String) :=
  urls.map (fun url => (url, clean_text (get_company_information net gen join url)))

/-- Instrumented fallback loop: additionally counts
(model calls, fetch calls) performed by the loop. -/
def expandInstr (net : NetOracle) (gen : GenOracle) :
    List String → String → String → String × Nat × Nat
  | [], _, extracted_info => (extracted_info, 0, 0)
  | link :: rest, cleaned_text, extracted_info =>
    match fetch_content net link with
    | none =>
      let r := expandInstr net gen rest cleaned_text extracted_info
      (r.1, r.2.1, r.2.2 + 1)
    | some (additional_soup, _) =>
      if additional_soup.isEmpty then
        let r := expandInstr net gen rest cleaned_text extracted_info
        (r.1, r.2.1, r.2.2 + 1)
      else
        let t2 := cleaned_text ++ "\n" ++ (extract_text additional_soup).1
        let i2 := call_gemini_api gen t2
        if strIn marker i2 then
          let r := expandInstr net gen rest t2 i2
          (r.1, r.2.1 + 1, r.2.2 + 1)
        else (i2, 1, 1)

/-- Instrumented orchestrator: result plus (model calls, fetch calls). -/
def gciInstr (net : NetOracle) (gen : GenOracle)
    (join : String → String → String) (url : String) : String × Nat × Nat :=
  match fetch_content net url with
  | none => (failMsg, 0, 1)
  | some (soup, js_links) =>
    if soup.isEmpty then (failMsg, 0, 1)
    else
      let cleaned_text := (extract_text soup).1
      let soup2 := (extract_text soup).2
      let extracted_info := call_gemini_api gen cleaned_text
      if strIn marker extracted_info then
        let r := expandInstr net gen
          (extract_relevant_links join soup2 js_links url url)
          cleaned_text extracted_info
        (r.1, r.2.1 + 1, r.2.2 + 1)
      else (extracted_info, 1, 1)

/-! Section Concrete fixtures used by witnesses and counterexamples -/

/-- A network oracle whose every request raises. -/
def netFail : NetOracle := fun _ => Except.error ()

/-- A network oracle returning a one-text-node page and no raw links. -/
def netHi : NetOracle := fun _ => Except.ok ([Node.text "hi"], [])

/-- A network oracle returning a successfully fetched but empty parsed
document. -/
def netEmptyDoc : NetOracle := fun _ => Except.ok ([], ["x"])

/-- A model oracle whose every call raises. -/
def genBoom : GenOracle := fun _ => Except.error "boom"

/-- A model oracle that always answers a fixed marker-free string. -/
def genAns : GenOracle := fun _ => Except.ok (some "All six answers.")

/-- A trivial stand-in for `urljoin`. -/
def joinW : String → String → String := fun _ l => l

/-- The marker does not occur in the empty string. -/
theorem marker_not_in_empty : strIn marker "" = false := by decide

/-! Section C7: model-call failures are caught -/

/-- C7: for every input text, a raised exception in the model call is
caught inside `call_gemini_api` and converted to the empty string, a
falsy response object also yields the empty string, and a response with
text is returned as is — the function is total, so no exception reaches
the caller. -/
theorem call_gemini_api_catches_failures (gen : GenOracle) (t : String) :
    (∀ e, gen (prompt t) = Except.error e → call_gemini_api gen t = "")
    ∧ (gen (prompt t) = Except.ok none → call_gemini_api gen t = "")
    ∧ (∀ r, gen (prompt t) = Except.ok (some r) → call_gemini_api gen t = r) := by
  refine ⟨fun e he => by simp [call_gemini_api, he],
    fun h => by simp [call_gemini_api, h],
    fun r hr => by simp [call_gemini_api, hr]⟩

/-- Witness for C7: a throwing model oracle yields the empty string. -/
theorem call_gemini_api_catches_failures_witness :
    call_gemini_api genBoom "some page text" = "" :=
  (call_gemini_api_catches_failures genBoom "some page text").1 "boom" rfl

/-! Section C3: primary fetch failure -/

/-- C3: if the primary fetch raises, the orchestrator returns the fixed
failure placeholder, performing no model call and exactly one (the
failed) fetch. -/
theorem primary_fetch_failure_placeholder (net : NetOracle) (gen : GenOracle)
    (join : String → String → String) (url : String)
    (h : net url = Except.error ()) :
    get_company_information net gen join url = failMsg
    ∧ gciInstr net gen join url = (failMsg, 0, 1) := by
  constructor <;> simp [get_company_information, gciInstr, fetch_content, h]

/-- Witness for C3 at a throwing network oracle. -/
theorem primary_fetch_failure_placeholder_witness :
    get_company_information netFail genBoom joinW "https://www.apple.com" = failMsg
    ∧ gciInstr netFail genBoom joinW "https://www.apple.com" = (failMsg, 0, 1) :=
  primary_fetch_failure_placeholder netFail genBoom joinW "https://www.apple.com" rfl

/-! Section C2: marker-free first answer means a single model call -/

/-- C2: when the primary fetch succeeds with a non-empty document and the
extractor's first answer does not contain the marker, the orchestrator
performs exactly one model call and one fetch and returns that first
answer. -/
theorem first_answer_without_marker_single_call (net : NetOracle)
    (gen : GenOracle) (join : String → String → String) (url : String)
    (soup : Soup) (js : List String)
    (hnet : net url = Except.ok (soup, js))
    (hsoup : soup.isEmpty = false)
    (hmk : strIn marker (call_gemini_api gen (extract_text soup).1) = false) :
    gciInstr net gen join url = (call_gemini_api gen (extract_text soup).1, 1, 1)
    ∧ get_company_information net gen join url
        = call_gemini_api gen (extract_text soup).1 := by
  constructor <;>
    simp [gciInstr, get_company_information, fetch_content, hnet, hsoup, hmk]

/-- Witness for C2: a fixed marker-free answer is returned after exactly
one model call and one fetch. -/
theorem first_answer_without_marker_single_call_witness :
    gciInstr netHi genAns joinW "u" = ("All six answers.", 1, 1) :=
  (first_answer_without_marker_single_call netHi genAns joinW "u"
    [Node.text "hi"] [] rfl rfl (by decide)).1

/-! Section C4: one output record per input URL, in order -/

/-- C4: the batch output has exactly one `(Company URL, Extracted
Information)` record per input URL, in input order: its first components
are exactly the input list. -/
theorem process_urls_one_record_per_url (net : NetOracle) (gen : GenOracle)
    (join : String → String → String) (urls : List String) :
    (process_urls net gen join urls).map Prod.fst = urls
    ∧ (process_urls net gen join urls).length = urls.length := by
  constructor
  · induction urls with
    | nil => rfl
    | cons u rest ih => simp [process_urls] at ih ⊢; exact ih
  · simp [process_urls]

/-! Section C10: an empty model answer counts as satisfactory -/

/-- C10: the empty string does not contain the marker, so a failed
(empty-string) model call is accepted: an empty first answer causes no
fallback fetch and is the final result, and an empty answer during
expansion stops the loop immediately with the empty result. -/
theorem empty_answer_treated_as_satisfactory :
    strIn marker "" = false
    ∧ (∀ (net : NetOracle) (gen : GenOracle) (join : String → String → String)
        (url : String) (soup : Soup) (js : List String),
        net url = Except.ok (soup, js) → soup.isEmpty = false →
        call_gemini_api gen (extract_text soup).1 = "" →
        gciInstr net gen join url = ("", 1, 1)
        ∧ get_company_information net gen join url = "")
    ∧ (∀ (net : NetOracle) (gen : GenOracle) (link : String)
        (rest : List String) (text info : String) (soup : Soup)
        (js : List String),
        net link = Except.ok (soup, js) → soup.isEmpty = false →
        call_gemini_api gen (text ++ "\n" ++ (extract_text soup).1) = "" →
        expandLinks net gen (link :: rest) text info = ""
        ∧ expandInstr net gen (link :: rest) text info = ("", 1, 1)) := by
  refine ⟨marker_not_in_empty, ?_, ?_⟩
  · intro net gen join url soup js hnet hsoup hcall
    constructor <;>
      simp [gciInstr, get_company_information, fetch_content, hnet, hsoup,
        hcall, marker_not_in_empty]
  · intro net gen link rest text info soup js hnet hsoup hcall
    constructor <;>
      simp [expandLinks, expandInstr, fetch_content, hnet, hsoup, hcall,
        marker_not_in_empty]

/-- Witness for C10: a throwing model oracle makes the orchestrator stop
after one call with the empty result. -/
theorem empty_answer_treated_as_satisfactory_witness :
    gciInstr netHi genBoom joinW "u" = ("", 1, 1) :=
  (empty_answer_treated_as_satisfactory.2.1 netHi genBoom joinW "u"
    [Node.text "hi"] [] rfl rfl rfl).1

/-! Section C1: the expansion loop -/

/-- Counterexample to C1 as stated: a successful fetch (`Except.ok`)
whose response parses to an empty document is skipped by the loop — no
text is appended and the extractor is not re-invoked (0 model calls),
so the final result is the still-marked previous answer rather than the
marker-free answer the re-invoked extractor would have produced. -/
theorem expansion_successful_fetch_skipped_cex :
    netEmptyDoc "L" = Except.ok ([], ["x"])
    ∧ call_gemini_api genAns ("T" ++ "\n" ++ (extract_text ([] : Soup)).1)
        = "All six answers."
    ∧ strIn marker "All six answers." = false
    ∧ expandInstr netEmptyDoc genAns ["L"] "T" marker = (marker, 0, 1)
    ∧ expandLinks netEmptyDoc genAns ["L"] "T" marker ≠ "All six answers." := by
  refine ⟨rfl, rfl, by decide, by decide, by decide⟩

/-- C1 (amended): in the expansion phase, iterating the candidate links
in order: a failed fetch — or a fetch whose response parses to an empty
document — is skipped and iteration continues; a fetch yielding a
non-empty document has its normalized text appended to the accumulated
text (earlier text is never replaced), the extractor is re-invoked on
the full accumulated text, and iteration stops as soon as an answer no
longer contains the marker; an empty or exhausted link set leaves the
last-obtained answer as the result (in particular, with the marker
present and an empty link set the output is the original answer and no
additional fetch occurs); every result is either the incoming answer or
a model answer for an extension of the accumulated text. -/
theorem expansion_loop_behavior (net : NetOracle) (gen : GenOracle) :
    (∀ text info, expandLinks net gen [] text info = info
      ∧ expandInstr net gen [] text info = (info, 0, 0))
    ∧ (∀ link rest text info, net link = Except.error () →
        expandLinks net gen (link :: rest) text info
          = expandLinks net gen rest text info)
    ∧ (∀ link rest text info js, net link = Except.ok (([] : Soup), js) →
        expandLinks net gen (link :: rest) text info
          = expandLinks net gen rest text info)
    ∧ (∀ link rest text info soup js, net link = Except.ok (soup, js) →
        soup.isEmpty = false →
        expandLinks net gen (link :: rest) text info
          = (if strIn marker
                (call_gemini_api gen (text ++ "\n" ++ (extract_text soup).1))
             then expandLinks net gen rest
                    (text ++ "\n" ++ (extract_text soup).1)
                    (call_gemini_api gen (text ++ "\n" ++ (extract_text soup).1))
             else call_gemini_api gen (text ++ "\n" ++ (extract_text soup).1)))
    ∧ (∀ links text info, expandLinks net gen links text info = info
        ∨ ∃ s, expandLinks net gen links text info
            = call_gemini_api gen (text ++ s))
    ∧ (∀ (join : String → String → String) url soup js,
        net url = Except.ok (soup, js) → soup.isEmpty = false →
        strIn marker (call_gemini_api gen (extract_text soup).1) = true →
        extract_relevant_links join (extract_text soup).2 js url url = [] →
        gciInstr net gen join url
          = (call_gemini_api gen (extract_text soup).1, 1, 1)) := by
  refine ⟨?_, ?_, ?_, ?_, ?_, ?_⟩
  · intro text info; exact ⟨rfl, rfl⟩
  · intro link rest text info h
    simp [expandLinks, fetch_content, h]
  · intro link rest text info js h
    simp [expandLinks, fetch_content, h]
  · intro link rest text info soup js h hsoup
    simp [expandLinks, fetch_content, h, hsoup]
  · intro links
    induction links with
    | nil => intro text info; exact Or.inl rfl
    | cons link rest ih =>
      intro text info
      rw [expandLinks]
      cases hf : fetch_content net link with
      | none => exact ih text info
      | some pr =>
        obtain ⟨soup, js⟩ := pr
        dsimp only
        by_cases hs : soup.isEmpty = true
        · rw [if_pos hs]
          exact ih text info
        · rw [if_neg hs]
          by_cases hm :
              strIn marker
                (call_gemini_api gen (text ++ "\n" ++ (extract_text soup).1)) = true
          · rw [if_pos hm]
            rcases ih (text ++ "\n" ++ (extract_text soup).1)
                (call_gemini_api gen (text ++ "\n" ++ (extract_text soup).1)) with
              heq | ⟨s, hs'⟩
            · refine Or.inr ⟨"\n" ++ (extract_text soup).1, ?_⟩
              rw [heq, String.append_assoc]
            · refine Or.inr ⟨"\n" ++ (extract_text soup).1 ++ s, ?_⟩
              rw [hs']
              simp [String.append_assoc]
          · rw [if_neg hm]
            exact Or.inr ⟨"\n" ++ (extract_text soup).1, by
              rw [String.append_assoc]⟩
  · intro join url soup js hnet hsoup hmk hlinks
    simp [gciInstr, fetch_content, hnet, hsoup, hmk, hlinks, expandInstr]

/-- Witness for C1 (amended): a failing fetch is skipped and an
exhausted link list returns the incoming answer. -/
theorem expansion_loop_behavior_witness :
    expandLinks netFail genAns ["a"] "t" "i" = "i" := by
  have h := expansion_loop_behavior netFail genAns
  rw [h.2.1 "a" [] "t" "i" rfl]
  exact (h.1 "t" "i").1

/-! Section C5: the link relevance filter -/

/-- A successful association-list lookup locates a pair of the list. -/
theorem lookup_mem :
    ∀ (l : List (String × List String)) (k : String) (v : List String),
      l.lookup k = some v → (k, v) ∈ l := by
  intro l
  induction l with
  | nil => intro k v h; simp [List.lookup] at h
  | cons p tl ih =>
    intro k v h
    obtain ⟨a, b⟩ := p
    cases hba : k == a with
    | true =>
      simp [List.lookup, hba] at h
      subst h
      have : k = a := eq_of_beq hba
      subst this
      exact List.mem_cons_self _ _
    | false =>
      simp [List.lookup, hba] at h
      exact List.mem_cons_of_mem _ (ih _ _ h)

/-- Every keyword of the compiled-in dictionary is already lowercase. -/
theorem table_keywords_lower :
    ∀ p ∈ COMPANY_KEYWORDS_table, ∀ k ∈ p.2, lowerStr k = k := by decide

/-- C5: membership in the result of `extract_relevant_links` is exactly
"keyword-matching structural href, resolved against the base URL, or
keyword-matching raw link"; the result is deduplicated; a lookup URL
absent from the keyword dictionary yields an empty result; and all
dictionary keywords are lowercase, so matching a keyword against the
lowercased candidate is a case-insensitive match. -/
theorem extract_relevant_links_spec (join : String → String → String)
    (soup : Soup) (js : List String) (base url : String) :
    (COMPANY_KEYWORDS_table.lookup url = none →
      extract_relevant_links join soup js base url = [])
    ∧ (extract_relevant_links join soup js base url).Nodup
    ∧ (∀ x, x ∈ extract_relevant_links join soup js base url ↔
        ((∃ h, (h ∈ findAnchors soup ∧ anyKeyword (COMPANY_KEYWORDS url) h = true)
            ∧ join base h = x)
         ∨ (x ∈ js ∧ anyKeyword (COMPANY_KEYWORDS url) x = true)))
    ∧ (∀ k, k ∈ COMPANY_KEYWORDS url → lowerStr k = k) := by
  refine ⟨?_, List.nodup_dedup _, ?_, ?_⟩
  · intro h
    simp [extract_relevant_links, COMPANY_KEYWORDS, h, anyKeyword]
  · intro x
    simp [extract_relevant_links, List.mem_dedup, List.mem_append,
      List.mem_map, List.mem_filter]
  · intro k hk
    unfold COMPANY_KEYWORDS at hk
    cases hl : COMPANY_KEYWORDS_table.lookup url with
    | none => rw [hl] at hk; simp at hk
    | some ks =>
      rw [hl] at hk
      exact table_keywords_lower (url, ks) (lookup_mem _ _ _ hl) k hk

/-- Witness for C5: an unknown lookup URL yields the empty link set. -/
theorem extract_relevant_links_spec_witness :
    COMPANY_KEYWORDS_table.lookup "https://unknown.example" = none
    ∧ extract_relevant_links joinW [] ["https://x/business"] "b"
        "https://unknown.example" = [] :=
  ⟨by decide,
   (extract_relevant_links_spec joinW [] ["https://x/business"] "b"
      "https://unknown.example").1 (by decide)⟩

/-! Section C6: the normalizer mutates the shared document -/

/-- Number of `script`/`style` elements anywhere in a tree. -/
def countSS : List Node → Nat
  | [] => 0
  | Node.text _ :: rest => countSS rest
  | Node.elem t _ cs :: rest => (if isSS t then 1 else 0) + countSS cs + countSS rest

/-- Decomposition removes every `script`/`style` element. -/
theorem countSS_decomposeSS (l : List Node) : countSS (decomposeSS l) = 0 := by
  induction l using decomposeSS.induct <;> simp [decomposeSS, countSS, *]

/-- Inserting href text nodes does not change the `script`/`style` count. -/
theorem countSS_insertHrefs (l : List Node) :
    countSS (insertHrefs l) = countSS l := by
  induction l using insertHrefs.induct <;> simp [insertHrefs, countSS, *]

/-- Counterexample to C6 as stated: normalizing a one-anchor document
changes the document (a text node is inserted after the anchor), and the
change is observable: re-running the normalizer on the same document
yields different text (the parenthesized href is duplicated). -/
theorem extract_text_not_pure_cex :
    (extract_text ((extract_text [Node.elem "a" (some "/x") [Node.text "t"]]).2)).1
      ≠ (extract_text [Node.elem "a" (some "/x") [Node.text "t"]]).1
    ∧ (extract_text [Node.elem "a" (some "/x") [Node.text "t"]]).2
      ≠ [Node.elem "a" (some "/x") [Node.text "t"]] := by
  constructor
  · simp [extract_text, get_text, insertHrefs, decomposeSS, isSS,
      strippedStrings, rawStrings, joinSp]
    decide
  · simp [extract_text, insertHrefs, decomposeSS, isSS]

/-- C6 (amended): `extract_text` mutates the shared parsed document in
place: every `script`/`style` element is removed from it (and href text
nodes are inserted), so any document containing a `script` or `style`
element is observed changed by later operations on the same document —
in `get_company_information`, `extract_relevant_links` receives this
mutated tree. -/
theorem extract_text_mutation_visible (soup : Soup) (h : countSS soup ≠ 0) :
    (extract_text soup).2 ≠ soup := by
  intro heq
  apply h
  have h2 : (extract_text soup).2 = insertHrefs (decomposeSS soup) := rfl
  rw [← heq, h2, countSS_insertHrefs, countSS_decomposeSS]

/-- Witness for C6 (amended) at a document holding a script element. -/
theorem extract_text_mutation_visible_witness :
    (extract_text [Node.elem "script" none [Node.text "x"]]).2
      ≠ [Node.elem "script" none [Node.text "x"]] :=
  extract_text_mutation_visible _ (by simp [countSS, isSS])

/-! Section C9: idempotence of the CSV cleaner -/

/-- No two adjacent whitespace characters (no run longer than one). -/
abbrev noTwoWS (l : List Char) : Prop :=
  List.Chain' (fun a b => ¬(a.isWhitespace = true ∧ b.isWhitespace = true)) l

/-- Every character of the collapsed list is a space or a non-whitespace
character of the input. -/
theorem collapseWS_mem (l : List Char) :
    ∀ c ∈ collapseWS l, c = ' ' ∨ (c ∈ l ∧ c.isWhitespace = false) := by
  induction l using collapseWS.induct with
  | case1 => simp [collapseWS]
  | case2 c h => simp [collapseWS, h]
  | case3 c h => simp [collapseWS, h]
  | case4 a b rest ha hb ih =>
    intro c hc
    rw [collapseWS, if_pos ha, if_pos hb] at hc
    rcases ih c hc with h | ⟨hm, hw⟩
    · exact Or.inl h
    · exact Or.inr ⟨List.mem_cons_of_mem _ hm, hw⟩
  | case5 a b rest ha hb ih =>
    intro c hc
    rw [collapseWS, if_pos ha, if_neg hb] at hc
    rcases List.mem_cons.mp hc with h | hc'
    · exact Or.inl h
    · rcases ih c hc' with h | ⟨hm, hw⟩
      · exact Or.inl h
      · exact Or.inr ⟨List.mem_cons_of_mem _ hm, hw⟩
  | case6 a b rest ha ih =>
    intro c hc
    rcases List.mem_cons.mp (by rwa [collapseWS, if_neg ha] at hc) with h | hc'
    · subst h
      exact Or.inr ⟨List.mem_cons_self _ _, by simpa using ha⟩
    · rcases ih c hc' with h | ⟨hm, hw⟩
      · exact Or.inl h
      · exact Or.inr ⟨List.mem_cons_of_mem _ hm, hw⟩

/-- Whitespace characters of the collapsed list are spaces. -/
theorem collapseWS_spaceOnly (l : List Char) :
    ∀ c ∈ collapseWS l, c.isWhitespace = true → c = ' ' := by
  intro c hc hw
  rcases collapseWS_mem l c hc with h | ⟨_, hnw⟩
  · exact h
  · rw [hw] at hnw
    cases hnw

/-- Collapsing a list headed by a non-whitespace character keeps the
head. -/
theorem collapseWS_head_nonWS {b : Char} (hb : ¬(b.isWhitespace = true))
    (rest : List Char) : ∃ tl, collapseWS (b :: rest) = b :: tl := by
  cases rest with
  | nil => exact ⟨[], by rw [collapseWS, if_neg hb]⟩
  | cons c rest' => exact ⟨collapseWS (c :: rest'), by rw [collapseWS, if_neg hb]⟩

/-- The collapsed list has no two adjacent whitespace characters. -/
theorem collapseWS_chain (l : List Char) : noTwoWS (collapseWS l) := by
  induction l using collapseWS.induct with
  | case1 => simp [collapseWS]
  | case2 c h => simp [collapseWS, h]
  | case3 c h => simp [collapseWS, h]
  | case4 a b rest ha hb ih =>
    rw [collapseWS, if_pos ha, if_pos hb]
    exact ih
  | case5 a b rest ha hb ih =>
    rw [collapseWS, if_pos ha, if_neg hb]
    obtain ⟨tl, htl⟩ := collapseWS_head_nonWS hb rest
    rw [htl]
    refine List.chain'_cons.mpr ⟨fun hcontra => hb hcontra.2, ?_⟩
    rw [← htl]
    exact ih
  | case6 a b rest ha ih =>
    rw [collapseWS, if_neg ha]
    exact List.chain'_cons'.mpr ⟨fun y _ hcontra => ha hcontra.1, ih⟩

/-- Collapsing is the identity on lists whose whitespace is single
spaces. -/
theorem collapseWS_eq_self :
    ∀ {l : List Char}, (∀ c ∈ l, c.isWhitespace = true → c = ' ') →
      noTwoWS l → collapseWS l = l := by
  intro l
  induction l using collapseWS.induct with
  | case1 => intro _ _; rfl
  | case2 c h =>
    intro h1 _
    rw [collapseWS, if_pos h, h1 c (by simp) h]
  | case3 c h =>
    intro _ _
    rw [collapseWS, if_neg h]
  | case4 a b rest ha hb ih =>
    intro _ h2
    exact absurd ⟨ha, hb⟩ (List.chain'_cons.mp h2).1
  | case5 a b rest ha hb ih =>
    intro h1 h2
    rw [collapseWS, if_pos ha, if_neg hb,
      ih (fun c hc hw => h1 c (List.mem_cons_of_mem _ hc) hw) (List.Chain'.tail h2),
      h1 a (List.mem_cons_self _ _) ha]
  | case6 a b rest ha ih =>
    intro h1 h2
    rw [collapseWS, if_neg ha,
      ih (fun c hc hw => h1 c (List.mem_cons_of_mem _ hc) hw) (List.Chain'.tail h2)]

/-- Replacing an absent character is the identity. -/
theorem replaceChar_eq_self {a b : Char} :
    ∀ {l : List Char}, a ∉ l → replaceChar a b l = l := by
  intro l h
  induction l with
  | nil => rfl
  | cons c t ih =>
    simp only [List.mem_cons, not_or] at h
    simp only [replaceChar, List.map_cons]
    rw [if_neg (fun hh => h.1 hh.symm)]
    exact congrArg _ (ih h.2)

/-- Characters of the replaced list are the replacement or original
characters. -/
theorem replaceChar_mem {a b c : Char} {l : List Char}
    (hc : c ∈ replaceChar a b l) : c = b ∨ c ∈ l := by
  simp only [replaceChar, List.mem_map] at hc
  obtain ⟨d, hd, he⟩ := hc
  by_cases hda : d = a
  · rw [if_pos hda] at he
    exact Or.inl he.symm
  · rw [if_neg hda] at he
    subst he
    exact Or.inr hd

/-- The replaced character does not occur in the result. -/
theorem replaceChar_no_a {a b : Char} (hab : b ≠ a) (l : List Char) :
    a ∉ replaceChar a b l := by
  simp only [replaceChar, List.mem_map]
  rintro ⟨d, hd, he⟩
  by_cases hda : d = a
  · rw [if_pos hda] at he
    exact hab he
  · rw [if_neg hda] at he
    exact hda he

/-- Stripping yields an infix of the input. -/
theorem stripWS_within (l : List Char) : stripWS l <:+: l := by
  have h1 : stripWS l <+: l.dropWhile Char.isWhitespace :=
    List.rdropWhile_prefix _ _
  have h2 : l.dropWhile Char.isWhitespace <:+ l := List.dropWhile_suffix _
  exact List.IsInfix.trans (List.IsPrefix.isInfix h1) (List.IsSuffix.isInfix h2)

/-- Stripping is the identity when both ends are not whitespace. -/
theorem stripWS_eq_self {l : List Char}
    (hhead : ∀ c, l.head? = some c → c.isWhitespace = false)
    (hlast : ∀ c, l.getLast? = some c → c.isWhitespace = false) :
    stripWS l = l := by
  cases l with
  | nil => rfl
  | cons c t =>
    have hc : c.isWhitespace = false := hhead c rfl
    have h1 : (c :: t).dropWhile Char.isWhitespace = c :: t := by
      simp [List.dropWhile_cons, hc]
    rw [stripWS, h1, List.rdropWhile_eq_self_iff]
    intro hl
    have := hlast ((c :: t).getLast hl) (List.getLast?_eq_getLast_of_ne_nil hl)
    simp [this]

/-- The head of a stripped list is not whitespace. -/
theorem stripWS_head (l : List Char) :
    ∀ c, (stripWS l).head? = some c → c.isWhitespace = false := by
  intro c hc
  rw [stripWS] at hc
  obtain ⟨t2, ht⟩ := List.rdropWhile_prefix Char.isWhitespace
    (l.dropWhile Char.isWhitespace)
  have hD : (l.dropWhile Char.isWhitespace).head? = some c := by
    rw [← ht]
    cases hstrip : List.rdropWhile Char.isWhitespace
        (l.dropWhile Char.isWhitespace) with
    | nil => rw [hstrip] at hc; cases hc
    | cons d tl =>
      rw [hstrip] at hc
      simpa using hc
  have hDne : l.dropWhile Char.isWhitespace ≠ [] := by
    intro h
    rw [h] at hD
    cases hD
  have hhd := List.head_dropWhile_not Char.isWhitespace l hDne
  have hceq : (l.dropWhile Char.isWhitespace).head hDne = c := by
    rw [List.head?_eq_head hDne] at hD
    exact Option.some.inj hD
  rw [hceq] at hhd
  simpa using hhd

/-- The last character of a stripped list is not whitespace. -/
theorem stripWS_last (l : List Char) :
    ∀ c, (stripWS l).getLast? = some c → c.isWhitespace = false := by
  intro c hc
  rw [stripWS] at hc
  have hne : List.rdropWhile Char.isWhitespace (l.dropWhile Char.isWhitespace)
      ≠ [] := by
    intro h
    rw [h] at hc
    cases hc
  have hlast := List.rdropWhile_last_not Char.isWhitespace
    (l.dropWhile Char.isWhitespace) hne
  have hceq := Option.some.inj
    ((List.getLast?_eq_getLast_of_ne_nil hne).symm.trans hc)
  rw [hceq] at hlast
  simpa using hlast

/-- Stripping is idempotent. -/
theorem stripWS_idem (l : List Char) : stripWS (stripWS l) = stripWS l :=
  stripWS_eq_self (stripWS_head l) (stripWS_last l)

/-- C9: the CSV cleaner is idempotent, and a cleaned string contains no
double quote, no newline, and no run of whitespace longer than one
character. -/
theorem clean_text_idempotent (s : String) :
    clean_text (clean_text s) = clean_text s
    ∧ dquote ∉ (clean_text s).data
    ∧ ('\n') ∉ (clean_text s).data
    ∧ noTwoWS (clean_text s).data := by
  have hdata : (clean_text s).data
      = stripWS (collapseWS (replaceChar '\n' ' '
          (replaceChar dquote squote s.data))) := rfl
  have hyz : (clean_text s).data
      <:+: collapseWS (replaceChar '\n' ' ' (replaceChar dquote squote s.data)) := by
    rw [hdata]
    exact stripWS_within _
  have hdq_m1 : dquote ∉ replaceChar dquote squote s.data :=
    replaceChar_no_a (by decide) _
  have hdq_m2 : dquote ∉ replaceChar '\n' ' ' (replaceChar dquote squote s.data) := by
    intro h
    rcases replaceChar_mem h with h' | h'
    · exact absurd h' (by decide)
    · exact hdq_m1 h'
  have hdq_z :
      dquote ∉ collapseWS (replaceChar '\n' ' ' (replaceChar dquote squote s.data)) := by
    intro h
    rcases collapseWS_mem _ dquote h with h' | ⟨h', _⟩
    · exact absurd h' (by decide)
    · exact hdq_m2 h'
  have hdq_y : dquote ∉ (clean_text s).data :=
    fun h => hdq_z (List.IsInfix.subset hyz h)
  have hso_y : ∀ c ∈ (clean_text s).data, c.isWhitespace = true → c = ' ' :=
    fun c hc => collapseWS_spaceOnly _ c (List.IsInfix.subset hyz hc)
  have hnl_y : ('\n') ∉ (clean_text s).data := by
    intro h
    exact absurd (hso_y _ h (by decide)) (by decide)
  have hch_y : noTwoWS (clean_text s).data :=
    List.Chain'.infix (collapseWS_chain _) hyz
  refine ⟨?_, hdq_y, hnl_y, hch_y⟩
  show String.mk (stripWS (collapseWS (replaceChar '\n' ' '
      (replaceChar dquote squote (clean_text s).data)))) = clean_text s
  rw [replaceChar_eq_self hdq_y, replaceChar_eq_self hnl_y,
    collapseWS_eq_self hso_y hch_y, hdata, stripWS_idem]
  rfl

/-! Section C8: the normalizer keeps each href right after its visible text -/

/-- The tree produced by `extract_text`'s two mutations. -/
def normTree (l : List Node) : List Node := insertHrefs (decomposeSS l)

/-- Unfolding `normTree` on a leading text node. -/
theorem normTree_text (s : String) (rest : List Node) :
    normTree (Node.text s :: rest) = Node.text s :: normTree rest := by
  simp [normTree, decomposeSS, insertHrefs]

/-- Unfolding: `normTree` decomposes a leading `script`/`style` element. -/
theorem normTree_ss (t : String) (h : Option String) (cs rest : List Node)
    (hss : isSS t = true) :
    normTree (Node.elem t h cs :: rest) = normTree rest := by
  simp [normTree, decomposeSS, hss]

/-- Unfolding `normTree` on a leading anchor carrying an href. -/
theorem normTree_anchor (href : String) (cs rest : List Node) :
    normTree (Node.elem "a" (some href) cs :: rest)
      = Node.elem "a" (some href) (normTree cs)
        :: Node.text (" (" ++ href ++ ")") :: normTree rest := by
  simp [normTree, decomposeSS, insertHrefs, isSS]

/-- Unfolding `normTree` on a leading element without an href. -/
theorem normTree_elem_none (t : String) (cs rest : List Node)
    (hss : isSS t = false) :
    normTree (Node.elem t none cs :: rest)
      = Node.elem t none (normTree cs) :: normTree rest := by
  simp [normTree, decomposeSS, insertHrefs, hss]

/-- Unfolding `normTree` on a leading non-anchor element with an href. -/
theorem normTree_elem_notA (t href : String) (cs rest : List Node)
    (hss : isSS t = false) (ha : (t == "a") = false) :
    normTree (Node.elem t (some href) cs :: rest)
      = Node.elem t (some href) (normTree cs) :: normTree rest := by
  simp [normTree, decomposeSS, insertHrefs, hss, ha]

/-- Stripped strings of a leading text node. -/
theorem strippedStrings_text (s : String) (l : List Node) :
    strippedStrings (Node.text s :: l)
      = (if stripWS s.data = [] then [] else [String.mk (stripWS s.data)])
        ++ strippedStrings l := by
  by_cases he : stripWS s.data = []
  · simp [strippedStrings, rawStrings, List.filterMap_cons, he]
  · simp [strippedStrings, rawStrings, List.filterMap_cons, he]

/-- Stripped strings of a leading element. -/
theorem strippedStrings_elem (t : String) (h : Option String)
    (cs l : List Node) :
    strippedStrings (Node.elem t h cs :: l)
      = strippedStrings cs ++ strippedStrings l := by
  simp [strippedStrings, rawStrings, List.filterMap_append]

/-- The data of the inserted href text node. -/
theorem insert_text_data (href : String) :
    (" (" ++ href ++ ")").data = ' ' :: '(' :: (href.data ++ [')']) := by
  cases href with
  | mk d => rfl

/-- Rebuilding the parenthesized href string. -/
theorem paren_string_eq (href : String) :
    String.mk ('(' :: (href.data ++ [')'])) = "(" ++ href ++ ")" := by
  cases href with
  | mk d => rfl

/-- Stripping the inserted href text removes exactly the leading space. -/
theorem stripWS_paren (d : List Char) :
    stripWS (' ' :: '(' :: (d ++ [')'])) = '(' :: (d ++ [')']) := by
  have h1 : List.dropWhile Char.isWhitespace (' ' :: '(' :: (d ++ [')']))
      = '(' :: (d ++ [')']) := by
    rw [List.dropWhile_cons, if_pos (by decide), List.dropWhile_cons,
      if_neg (by decide)]
  rw [stripWS, h1, show ('(' :: (d ++ [')'])) = ('(' :: d) ++ [')'] from rfl,
    List.rdropWhile_concat_neg Char.isWhitespace ('(' :: d) ')' (by decide)]

/-- Stripped strings of a leading inserted href text node. -/
theorem strippedStrings_insert (href : String) (l : List Node) :
    strippedStrings (Node.text (" (" ++ href ++ ")") :: l)
      = ("(" ++ href ++ ")") :: strippedStrings l := by
  rw [strippedStrings_text, insert_text_data, stripWS_paren]
  rw [if_neg (by simp), paren_string_eq]
  simp

/-- Occurrence of a node in a document outside of any `script`/`style`
element (the only places BeautifulSoup can find it after decomposition). -/
inductive OccursLive (a : Node) : List Node → Prop
  | here (rest : List Node) : OccursLive a (a :: rest)
  | there (n : Node) (rest : List Node) :
      OccursLive a rest → OccursLive a (n :: rest)
  | inside (t : String) (h : Option String) (cs rest : List Node) :
      isSS t = false → OccursLive a cs →
      OccursLive a (Node.elem t h cs :: rest)

/-- Wherever an href-carrying anchor occurs live in the document, the
stripped strings of the normalized tree contain the anchor's own
stripped strings immediately followed by the parenthesized href. -/
theorem occursLive_strings (h : String) (cs : List Node) :
    ∀ {soup : List Node}, OccursLive (Node.elem "a" (some h) cs) soup →
    ∃ X Y, strippedStrings (normTree soup)
      = X ++ (strippedStrings (normTree cs) ++ ("(" ++ h ++ ")") :: Y) := by
  intro soup hocc
  induction hocc with
  | here rest =>
    refine ⟨[], strippedStrings (normTree rest), ?_⟩
    rw [normTree_anchor, strippedStrings_elem, strippedStrings_insert]
    simp
  | there n rest hrec ih =>
    obtain ⟨X, Y, hXY⟩ := ih
    cases n with
    | text s =>
      refine ⟨(if stripWS s.data = [] then []
        else [String.mk (stripWS s.data)]) ++ X, Y, ?_⟩
      rw [normTree_text, strippedStrings_text, hXY]
      simp [List.append_assoc]
    | elem t h' cs' =>
      by_cases hss : isSS t = true
      · refine ⟨X, Y, ?_⟩
        rw [normTree_ss _ _ _ _ hss]
        exact hXY
      · have hss' : isSS t = false := by simpa using hss
        cases h' with
        | none =>
          refine ⟨strippedStrings (normTree cs') ++ X, Y, ?_⟩
          rw [normTree_elem_none _ _ _ hss', strippedStrings_elem, hXY]
          simp [List.append_assoc]
        | some href =>
          by_cases ha : (t == "a") = true
          · have ht : t = "a" := eq_of_beq ha
            subst ht
            refine ⟨strippedStrings (normTree cs')
              ++ ("(" ++ href ++ ")") :: X, Y, ?_⟩
            rw [normTree_anchor, strippedStrings_elem,
              strippedStrings_insert, hXY]
            simp [List.append_assoc]
          · have ha' : (t == "a") = false := by simpa using ha
            refine ⟨strippedStrings (normTree cs') ++ X, Y, ?_⟩
            rw [normTree_elem_notA _ _ _ _ hss' ha', strippedStrings_elem, hXY]
            simp [List.append_assoc]
  | inside t h' cs' rest hss hrec ih =>
    obtain ⟨X, Y, hXY⟩ := ih
    cases h' with
    | none =>
      refine ⟨X, Y ++ strippedStrings (normTree rest), ?_⟩
      rw [normTree_elem_none _ _ _ hss, strippedStrings_elem, hXY]
      simp [List.append_assoc]
    | some href =>
      by_cases ha : (t == "a") = true
      · have ht : t = "a" := eq_of_beq ha
        subst ht
        refine ⟨X, Y ++ ("(" ++ href ++ ")")
          :: strippedStrings (normTree rest), ?_⟩
        rw [normTree_anchor, strippedStrings_elem, strippedStrings_insert, hXY]
        simp [List.append_assoc]
      · have ha' : (t == "a") = false := by simpa using ha
        refine ⟨X, Y ++ strippedStrings (normTree rest), ?_⟩
        rw [normTree_elem_notA _ _ _ _ hss ha', strippedStrings_elem, hXY]
        simp [List.append_assoc]

/-- Appending the empty string on the right. -/
theorem strAppendEmpty (s : String) : s ++ "" = s := by
  cases s with
  | mk d =>
    show String.mk (d ++ []) = String.mk d
    rw [List.append_nil]

/-- Appending the empty string on the left. -/
theorem strEmptyAppend (s : String) : "" ++ s = s := by
  cases s with
  | mk d => rfl

/-- Unfolding `joinSp` of a cons with a non-empty tail. -/
theorem joinSp_cons (s : String) (l : List String) (hl : l ≠ []) :
    joinSp (s :: l) = s ++ " " ++ joinSp l := by
  cases l with
  | nil => exact absurd rfl hl
  | cons b m => rfl

/-- The join `joinSp` splits over an append of non-empty lists. -/
theorem joinSp_append :
    ∀ (A B : List String), A ≠ [] → B ≠ [] →
      joinSp (A ++ B) = joinSp A ++ " " ++ joinSp B := by
  intro A
  induction A with
  | nil => intro B h _; exact absurd rfl h
  | cons a A2 ih =>
    intro B _ hB
    cases A2 with
    | nil =>
      rw [List.cons_append, List.nil_append, joinSp_cons a B hB]
      rfl
    | cons b A3 =>
      rw [List.cons_append, joinSp_cons a ((b :: A3) ++ B) (by simp),
        ih B (by simp) hB, joinSp_cons a (b :: A3) (by simp)]
      simp [String.append_assoc]

/-- A left context reduces to a prefix string. -/
theorem joinSp_append_left (X M : List String) (hM : M ≠ []) :
    ∃ p, joinSp (X ++ M) = p ++ joinSp M := by
  cases hX : X with
  | nil => exact ⟨"", by rw [List.nil_append, strEmptyAppend]⟩
  | cons a X2 =>
    refine ⟨joinSp (a :: X2) ++ " ", ?_⟩
    rw [joinSp_append (a :: X2) M (by simp) hM]

/-- A right context reduces to a suffix string. -/
theorem joinSp_append_right (M Y : List String) (hM : M ≠ []) :
    ∃ q, joinSp (M ++ Y) = joinSp M ++ q := by
  cases hY : Y with
  | nil => exact ⟨"", by rw [List.append_nil, strAppendEmpty]⟩
  | cons b Y2 =>
    refine ⟨" " ++ joinSp (b :: Y2), ?_⟩
    rw [joinSp_append M (b :: Y2) hM (by simp), String.append_assoc]

/-- C8: for every document in which a hyperlink element with an href and
non-empty normalized visible text occurs (outside `script`/`style`), the
normalizer's flattened output contains that visible text immediately
followed by the parenthesized href. -/
theorem normalizer_keeps_href_after_text (soup : Soup) (h : String)
    (cs : List Node)
    (hocc : OccursLive (Node.elem "a" (some h) cs) soup)
    (hvis : (extract_text cs).1 ≠ "") :
    ∃ p q, (extract_text soup).1
      = p ++ ((extract_text cs).1 ++ " (" ++ h ++ ")") ++ q := by
  obtain ⟨X, Y, hXY⟩ := occursLive_strings h cs hocc
  have hS : strippedStrings (normTree cs) ≠ [] := by
    intro he
    apply hvis
    show joinSp (strippedStrings (normTree cs)) = ""
    rw [he]
    rfl
  have h1 : (extract_text soup).1 = joinSp (strippedStrings (normTree soup)) := rfl
  have h2 : (extract_text cs).1 = joinSp (strippedStrings (normTree cs)) := rfl
  have hkey : ∀ S2 : String, S2 ++ " " ++ ("(" ++ h ++ ")") = S2 ++ " (" ++ h ++ ")" := by
    intro S2
    simp only [String.append_assoc]
    rw [show (" " : String) ++ ("(" ++ (h ++ ")")) = (" " ++ "(") ++ (h ++ ")")
      from (String.append_assoc _ _ _).symm]
    rfl
  rw [h1, h2, hXY, List.append_cons (strippedStrings (normTree cs)) ("(" ++ h ++ ")") Y]
  obtain ⟨p, hp⟩ := joinSp_append_left X
    ((strippedStrings (normTree cs) ++ [("(" ++ h ++ ")")]) ++ Y) (by simp)
  obtain ⟨q, hq⟩ := joinSp_append_right
    (strippedStrings (normTree cs) ++ [("(" ++ h ++ ")")]) Y (by simp)
  refine ⟨p, q, ?_⟩
  rw [hp, hq, joinSp_append (strippedStrings (normTree cs))
    [("(" ++ h ++ ")")] hS (by simp)]
  rw [show joinSp [("(" ++ h ++ ")")] = "(" ++ h ++ ")" from rfl]
  rw [hkey (joinSp (strippedStrings (normTree cs)))]
  simp [String.append_assoc]

/-- Witness for C8 at the document `<a href="/x">text</a>`. -/
theorem normalizer_keeps_href_after_text_witness :
    ∃ p q, (extract_text [Node.elem "a" (some "/x") [Node.text "text"]]).1
      = p ++ ((extract_text [Node.text "text"]).1 ++ " (" ++ "/x" ++ ")") ++ q :=
  normalizer_keeps_href_after_text
    [Node.elem "a" (some "/x") [Node.text "text"]] "/x" [Node.text "text"]
    (OccursLive.here [])
    (by
      simp [extract_text, get_text, insertHrefs, decomposeSS, strippedStrings,
        rawStrings, joinSp]
      decide)
